import Mathlib

/-!
# Verification of the angular-howler playback engine

Shallow embedding of the playback-orchestration core from
`src/src/module/howler/class/howl.ts` (the `Howl` group, its `Sound`
instances, the pre-load action queue, the instance pool with its drain
policy, and the fade interval), together with the codec-scanning part of
`load` and the id-resolution helper `_getSoundIds`.

Machine numbers (seconds, volumes, rates) are modelled as rationals;
JavaScript `Math.round(x*100)/100` becomes `jsRound2`.  Backend node
manipulation (WebAudio buffer sources, HTML5 media elements) is outside
the model: starting playback is recorded as a `PlayOutcome.started`
value carrying the parameters the engine computed for the backend.
-/

namespace AngularHowler

-- The concrete playback traces below are evaluated by `decide`; the
-- rational arithmetic they use must therefore unfold during
-- elaboration (the kernel itself ignores reducibility annotations).
attribute [local semireducible] Rat.inv Rat.mul Rat.add Rat.sub

/-- JavaScript truthiness of an optional numeric argument
(`null`/`undefined` and `0` are falsy). -/
def jsTruthyN : Option Nat → Bool
  | none => false
  | some n => n != 0

/-- A deferred action stored in the `_queue`.  The source stores a
closure; we record which call the closure performs.  `playId n`
is the closure `() => self.play(soundId)` pushed by `play`;
`other tag` stands for the closures pushed by `pause`/`stop`/`mute`/
`volume`/`rate`/`seek`/`fade` (identified by a token). -/
inductive QAction where
  | playId : Nat → QAction
  | other : String → QAction
deriving DecidableEq, Repr

/-- One task of the pre-load action queue: `{event, action}` as pushed by
the deferring public methods. -/
structure Task where
  event : String
  action : QAction
deriving DecidableEq, Repr

/-- `_loadQueue(event)` from `howl.ts`:

```
if (this._queue.length > 0) {
  const task = this._queue[0];
  if (task.event === event) { this._queue.shift(); this._loadQueue(); }
  if (!event) { task.action(); }
}
```

The result is the new queue together with the actions executed during
the call (at most one: the head of the resulting queue).  A `none`
event is JavaScript's missing argument; a task's `event` field is
always a string, so `task.event === event` is false when `event` is
missing. -/
def loadQueue : List Task → Option String → List Task × List QAction
  | [], _ => ([], [])
  | task :: rest, none => (task :: rest, [task.action])
  | task :: rest, some e =>
      if task.event = e then loadQueue rest none
      else (task :: rest, [])

/-- Folding `_loadQueue` over a sequence of fired events (each entry is
one call, `none` being a call with no event), collecting all executed
actions in order. -/
def drainTrace : List Task → List (Option String) → List Task × List QAction
  | q, [] => (q, [])
  | q, ev :: evs =>
      let p := loadQueue q ev
      let r := drainTrace p.1 evs
      (r.1, p.2 ++ r.2)

/-- The executed-action list is consistent with FIFO processing of the
queue: every executed action is drawn from the queue at a position no
earlier than the position of the previously executed one. -/
def inOrder (q : List Task) : List QAction → Prop
  | [] => True
  | a :: as => ∃ k, ∃ h : k < q.length, a = (q.get ⟨k, h⟩).action ∧ inOrder (q.drop k) as

/-- Per-playback-unit state (`Sound`).  The repository's `Sound` class
(`sound.ts`) owns the backend node and the id assigned by
`Howl.register`; the playback flags and timing fields are the ones read
and written throughout `howl.ts` (`_paused`, `_ended`, `_seek`,
`_rateSeek`, `_start`, `_stop`, `_loop`, `_rate`, `_volume`, `_muted`,
`_sprite`).  The `sound.ts` constructor does not initialize the flags;
their initial values (a fresh instance is inactive: paused and ended)
are modelled from the spec's instance life cycle (spec.md sections 3 and
4.3). -/
structure Sound where
  _id : Nat
  _paused : Bool := true
  _ended : Bool := true
  _sprite : Option String := none
  _seek : ℚ := 0
  _rateSeek : ℚ := 0
  _start : ℚ := 0
  _stop : ℚ := 0
  _loop : Bool := false
  _rate : ℚ := 1
  _volume : ℚ := 1
  _muted : Bool := false
deriving DecidableEq, Repr

/-- One sprite table entry `[offsetMs, durationMs, loop?]`. -/
structure SpriteDef where
  offset : ℚ
  len : ℚ
  loopFlag : Bool
deriving DecidableEq, Repr

/-- One source candidate: the url (or data URI) string and the optional
explicit format. -/
structure Source where
  format : Option String := none
  src : String
deriving DecidableEq, Repr

/-- The group state of a `Howl`: load state, sound pool, pre-load
queue, sprite table, play lock, pool limit, backend selection and the
group-level sound defaults. -/
structure Group where
  _state : String := "unloaded"
  _sounds : List Sound := []
  _queue : List Task := []
  _sprite : List (String × SpriteDef) := []
  _playLock : Bool := false
  _pool : Nat := 5
  _webAudio : Bool := true
  _volume : ℚ := 1
  _rate : ℚ := 1
  _loop : Bool := false
  _muted : Bool := false
  _src : List Source := []
deriving DecidableEq, Repr

/-- `self._sprite[sprite]`: sprite-table lookup (a `none` sprite name
reads a missing property). -/
def lookupSprite (g : Group) (name : Option String) : Option SpriteDef :=
  match name with
  | none => none
  | some n => (g._sprite.find? (fun p => p.1 == n)).map (fun p => p.2)

/-- `_getSoundIds(id)` from `howl.ts`:

```
if (id) {
  const ids = [];
  this._sounds.forEach(sound => { ids.push(sound._id); });
  return ids;
} else {
  return [id];
}
```

A truthy `id` collects every sound's `_id`; otherwise the one-element
array `[id]` is returned. -/
def _getSoundIds (sounds : List Sound) (id : Option Nat) : List (Option Nat) :=
  if jsTruthyN id then sounds.map (fun s => some s._id) else [id]

/-- `_soundById(id)`: the source iterates
`forEach((sound, index) => { if (index === id) foundSound = sound; })`,
selecting by array *index*, not by the sound's `_id` field. -/
def _soundById (sounds : List Sound) (id : Nat) : Option Sound :=
  sounds.get? id

/-- `Howl.register(sound)`: pushes the sound and returns
`this._soundArray.length` — the length *after* the push — which the
`Sound` constructor stores as its id.  (The source carries the comment
`FIXME: ensure indexes are not reused!`.) -/
def register (arr : List Sound) (s : Sound) : List Sound × Nat :=
  (arr ++ [s], (arr ++ [s]).length)

/-- Number of sounds with `_ended` set. -/
def endedCount (sounds : List Sound) : Nat := (sounds.filter (fun s => s._ended)).length

/-- Number of sounds with `_ended` clear. -/
def nonEndedCount (sounds : List Sound) : Nat :=
  (sounds.filter (fun s => !s._ended)).length

/-- The downward removal loop of `_drain`: indices run from the newest
(end of the array) to the oldest; once the running count of ended
sounds is at or below the limit the loop returns; otherwise an ended
sound is spliced out (its node disconnected) and the count
decremented. -/
def drainGo (limit : Nat) : List Sound → Nat → List Sound × Nat
  | [], cnt => ([], cnt)
  | s :: rest, cnt =>
      let p := drainGo limit rest cnt
      if p.2 ≤ limit then (s :: p.1, p.2)
      else if s._ended then (p.1, p.2 - 1)
      else (s :: p.1, p.2)

/-- `_drain()` from `howl.ts`: if fewer sounds than the pool limit are
held, return; otherwise count the ended sounds and remove excess ended
sounds in reverse (newest-first) order. -/
def _drain (limit : Nat) (sounds : List Sound) : List Sound :=
  if sounds.length < limit then sounds
  else (drainGo limit sounds (endedCount sounds)).1

/-- The `forEach` scan of `_inactiveSound`: the first sound with
`_ended` set is selected (later ones are skipped via the `foundReset`
flag).  Returns its position. -/
def firstEndedIdx : List Sound → Option Nat
  | [] => none
  | s :: rest =>
      if s._ended then some 0
      else (firstEndedIdx rest).map (fun i => i + 1)

/-- A freshly constructed `Sound` with the given id: the `SoundConfig`
built by the group carries the group-level `muted/loop/volume/rate`
defaults. -/
def newSound (g : Group) (id : Nat) : Sound :=
  { _id := id, _volume := g._volume, _rate := g._rate,
    _loop := g._loop, _muted := g._muted }

/-- `_inactiveSound()`: first run `_drain`, then recycle the first
sound with `_ended` set — its `reset()` in `sound.ts` calls
`this.config.exchangeObject(...)` on a *copy* returned by the `config`
getter, leaving the sound itself (id included) unchanged — else
construct a new `Sound`, which registers itself and receives
`id = array length after the push` (see `register`).  Returns the
updated array and the position of the selected sound. -/
def _inactiveSound (g : Group) : List Sound × Nat :=
  let ds := _drain g._pool g._sounds
  match firstEndedIdx ds with
  | some i => (ds, i)
  | none => (ds ++ [newSound g (ds.length + 1)], ds.length)

/-- Argument forms of `play(sprite)`: a numeric sound id, a sprite
name, or no argument. -/
inductive PlayArg where
  | num : Nat → PlayArg
  | str : String → PlayArg
  | undef : PlayArg
deriving DecidableEq, Repr

/-- What a `play` call does, as observed by the caller and the backend:
`nullReturn` is the `return null` paths; `queuedReturn` is the
pre-load deferral (stable id returned, no backend start);
`alreadyPlaying` the truthy-id early return; `endedReturn` the
`seek >= stop` branch (`_ended` runs, `return;`); `started` carries the
parameters handed to the backend; `thrown` models the `TypeError` a
missing sprite entry produces at `self._sprite[sprite][0]`. -/
inductive PlayOutcome where
  | nullReturn : PlayOutcome
  | queuedReturn : Nat → PlayOutcome
  | alreadyPlaying : Nat → PlayOutcome
  | endedReturn : Nat → PlayOutcome
  | started : Nat → ℚ → ℚ → ℚ → PlayOutcome
  | thrown : PlayOutcome
deriving DecidableEq, Repr

/-- Argument dispatch at the top of `play`: a number is an id; a string
is a sprite name — with `return null` when the group is loaded and the
name is absent from the sprite table; no argument selects `__default`
and, when the play lock is clear and exactly one paused non-ended
sound exists, resumes that sound by id instead.  Returns
`(id, sprite, earlyNull)`. -/
def playDispatch (g : Group) : PlayArg → Option Nat × Option String × Bool
  | .num n => (some n, none, false)
  | .str s =>
      if g._state = "loaded" ∧ lookupSprite g (some s) = none then (none, none, true)
      else (none, some s, false)
  | .undef =>
      if g._playLock then (none, some "__default", false)
      else
        match g._sounds.filter (fun s => s._paused && !s._ended) with
        | [s] => (some s._id, none, false)
        | _ => (none, some "__default", false)

/-- The per-sound body of `stop(id, internal)` once the group is
loaded: seek reset to the sprite start (`sound._start || 0`), flags set
to paused and ended, the end timer cleared and any running fade
cancelled; backend node teardown is outside the model.  With
`internal = true` no `stop` event is emitted. -/
def stopAtPos (g : Group) (pos : Nat) : Group :=
  match g._sounds.get? pos with
  | none => g
  | some sound =>
      let s' := { sound with _seek := sound._start, _rateSeek := 0,
                             _paused := true, _ended := true }
      { g with _sounds := g._sounds.set pos s' }

/-- `_ended(sound)` for the sound at `pos`: recompute the loop flag
from the sound and the sprite table, emit `end` (emission steps the
load queue with trigger `end`), then: Web Audio and looping → emit
`play`, rewind the seek and re-arm the end timer; Web Audio and not
looping → mark paused and ended, rewind and release the buffer source;
HTML5 → delegate to the internal `stop` (the extra `play` re-entry of
the HTML5 looping branch restarts backend playback and is not modelled
further; the HTML5 "node not yet done" re-check reads live backend
node state and is likewise outside the model).  A missing sprite entry
is read as a false loop flag here. -/
def groupEnded (g : Group) (pos : Nat) : Group :=
  match g._sounds.get? pos with
  | none => g
  | some sound =>
      let spLoop := match lookupSprite g sound._sprite with
        | some sp => sp.loopFlag
        | none => false
      let loop := sound._loop || spLoop
      let g1 := { g with _queue := (loadQueue g._queue (some "end")).1 }
      if g1._webAudio && loop then
        let s' := { sound with _seek := sound._start, _rateSeek := 0 }
        { g1 with _sounds := g1._sounds.set pos s',
                  _queue := (loadQueue g1._queue (some "play")).1 }
      else if g1._webAudio then
        let s' := { sound with _paused := true, _ended := true,
                               _seek := sound._start, _rateSeek := 0 }
        { g1 with _sounds := g1._sounds.set pos s' }
      else
        stopAtPos g1 pos

/-- The body of `play` once a target sound at position `pos` is
resolved and the group is loaded: compute the playback window

```
seek    = max(0, sound._seek > 0 ? sound._seek : sprite[0] / 1000)
duration = max(0, (sprite[0] + sprite[1]) / 1000 - seek)
timeout = duration * 1000 / |rate|
stop    = (sprite[0] + sprite[1]) / 1000
```

record the sprite on the sound and clear its ended flag, then either
run `_ended` immediately (`seek >= stop`) and return, or apply
`setParams` and start backend playback with the computed parameters
(the asynchronous backend start and the suspended-context deferral are
recorded in the outcome). -/
def playStart (g : Group) (pos : Nat) (sprite : Option String) : Group × PlayOutcome :=
  match g._sounds.get? pos with
  | none => (g, .nullReturn)
  | some sound =>
      match lookupSprite g sprite with
      | none => (g, .thrown)
      | some sp =>
          let seek := max 0 (if sound._seek > 0 then sound._seek else sp.offset / 1000)
          let dur := max 0 ((sp.offset + sp.len) / 1000 - seek)
          let timeout := dur * 1000 / |sound._rate|
          let start := sp.offset / 1000
          let stop := (sp.offset + sp.len) / 1000
          let sound1 := { sound with _sprite := sprite, _ended := false }
          let g1 := { g with _sounds := g._sounds.set pos sound1 }
          if seek ≥ stop then
            (groupEnded g1 pos, .endedReturn sound._id)
          else
            let sound2 := { sound1 with _paused := false, _seek := seek,
                                        _start := start, _stop := stop,
                                        _loop := sound1._loop || sp.loopFlag }
            ({ g1 with _sounds := g1._sounds.set pos sound2 },
             .started sound._id seek dur timeout)

/-- `play(sprite)` from `howl.ts` (`internal` false): argument
dispatch, target resolution (`_soundById` — an index lookup — for a
truthy numeric argument, else `_inactiveSound`), default-sprite
backfill for an id target, the pre-load deferral branch (store the
sprite, clear `_ended`, push a retry keyed to event `play`, return the
id), the already-playing early return (which steps the load queue with
trigger `play`), then `playStart`. -/
def play (g : Group) (arg : PlayArg) : Group × PlayOutcome :=
  let d := playDispatch g arg
  if d.2.2 then (g, .nullReturn)
  else
    let id0 := d.1
    let sprite0 := d.2.1
    let resolved : Group × Option Nat :=
      if jsTruthyN id0 then
        (g, if id0.getD 0 < g._sounds.length then some (id0.getD 0) else none)
      else
        let p := _inactiveSound g
        ({ g with _sounds := p.1 }, some p.2)
    match resolved.2 with
    | none => (resolved.1, .nullReturn)
    | some pos =>
        let g1 := resolved.1
        match g1._sounds.get? pos with
        | none => (g1, .nullReturn)
        | some sound =>
            let sprite1 :=
              if jsTruthyN id0 && sprite0.isNone then
                some (match sound._sprite with
                      | some s => if s = "" then "__default" else s
                      | none => "__default")
              else sprite0
            if g1._state ≠ "loaded" then
              let sound' := { sound with _sprite := sprite1, _ended := false }
              ({ g1 with _sounds := g1._sounds.set pos sound',
                         _queue := g1._queue ++ [⟨"play", QAction.playId sound._id⟩] },
               .queuedReturn sound._id)
            else if jsTruthyN id0 && !sound._paused then
              ({ g1 with _queue := (loadQueue g1._queue (some "play")).1 },
               .alreadyPlaying sound._id)
            else
              playStart g1 pos sprite1

/-- `playing(id)` for a resolved sound: `!sound._paused` (the derived
playing flag). -/
def playingSound (s : Sound) : Bool := !s._paused

/-- The per-instance flag invariant of the spec: `ended` is a stricter
subset of `paused`. -/
def soundInv (s : Sound) : Prop := s._ended = true → s._paused = true

/-- Every sound held by the group satisfies `soundInv`. -/
def groupInv (g : Group) : Prop := ∀ s ∈ g._sounds, soundInv s

/-- The mutations `howl.ts` performs on one sound's playback flags, one
constructor per mutation site.  Values the engine reads from clocks or
backend nodes (the captured pause position, a seek target) enter as
parameters.  `queueSprite` is the pre-load branch of `play`;
`playCommit` is `sound._ended = false` at the top of the playback
section together with `setParams` (run when the backend accepts the
start); `playError` the HTML5 rejection handler; `pauseCapture` the
body of `pause` (guarded by `!sound._paused`); `stopReset` the body of
`stop`; `seekSet` the seek-write branch of `seek`; `endedLoopRewind` /
`endedInactive` the looping / non-looping branches of `_ended`;
`recycleReset` is `Sound.reset`, which mutates only a copy of the
config; the remaining constructors are the setter methods, which do not
touch the flags. -/
inductive SoundStep : Sound → Sound → Prop where
  | queueSprite (s : Sound) (spr : Option String) :
      SoundStep s { s with _sprite := spr, _ended := false }
  | playCommit (s : Sound) (spr : Option String) (seek start stop : ℚ) (lf : Bool) :
      SoundStep s { s with _sprite := spr, _ended := false, _paused := false,
                           _seek := seek, _start := start, _stop := stop,
                           _loop := s._loop || lf }
  | playError (s : Sound) :
      SoundStep s { s with _ended := true, _paused := true }
  | pauseCapture (s : Sound) (v : ℚ) :
      s._paused = false →
      SoundStep s { s with _seek := v, _rateSeek := 0, _paused := true }
  | stopReset (s : Sound) :
      SoundStep s { s with _seek := s._start, _rateSeek := 0,
                           _paused := true, _ended := true }
  | seekSet (s : Sound) (v : ℚ) :
      SoundStep s { s with _seek := v, _ended := false }
  | endedLoopRewind (s : Sound) :
      SoundStep s { s with _seek := s._start, _rateSeek := 0 }
  | endedInactive (s : Sound) :
      SoundStep s { s with _paused := true, _ended := true,
                           _seek := s._start, _rateSeek := 0 }
  | muteSet (s : Sound) (m : Bool) : SoundStep s { s with _muted := m }
  | volumeSet (s : Sound) (v : ℚ) : SoundStep s { s with _volume := v }
  | rateSet (s : Sound) (r : ℚ) : SoundStep s { s with _rate := r }
  | loopSet (s : Sound) (b : Bool) : SoundStep s { s with _loop := b }
  | recycleReset (s : Sound) : SoundStep s s

/-- Lowercasing, for `toLowerCase()` on regex captures. -/
def lowerStr (s : String) : String := String.mk (s.toList.map Char.toLower)

/-- `str.split('?', 1)[0]`: the characters before the first `?`. -/
def beforeQuery (s : String) : List Char := s.toList.takeWhile (fun c => c != '?')

/-- The suffix after the last `.`, when a dot occurs. -/
def afterLastDot : List Char → Option (List Char)
  | [] => none
  | c :: cs =>
      match afterLastDot cs with
      | some r => some r
      | none => if c = '.' then some cs else none

/-- The regex `\.([^.]+)$` applied to the part of the url before any
query string: the non-empty suffix after the last dot. -/
def pathExt (s : String) : Option String :=
  match afterLastDot (beforeQuery s) with
  | some r => if r = [] then none else some (String.mk r)
  | none => none

/-- Case-insensitive prefix removal, for the `data:audio/` head of the
data-URI regex (the regex carries the `i` flag). -/
def dropCaseless : List Char → List Char → Option (List Char)
  | [], cs => some cs
  | _ :: _, [] => none
  | p :: ps, c :: cs => if c.toLower = p.toLower then dropCaseless ps cs else none

/-- The regex `^data:audio\/([^;,]+);` (case-insensitive): after the
`data:audio/` head, a non-empty run of characters other than `;`/`,`,
terminated by `;`; the capture is that run. -/
def dataUriExt (s : String) : Option String :=
  match dropCaseless "data:audio/".toList s.toList with
  | none => none
  | some rest =>
      let cap := rest.takeWhile (fun c => c != ';' && c != ',')
      if cap ≠ [] ∧ (rest.drop cap.length).head? = some ';' then some (String.mk cap)
      else none

/-- Url parsing in `load`: data-URI media type first, then path
suffix; the matched capture is lowercased. -/
def parseExt (s : String) : Option String :=
  match dataUriExt s with
  | some e => some (lowerStr e)
  | none => (pathExt s).map lowerStr

/-- Extension selection for one candidate: a truthy explicit `format`
entry is used as-is; otherwise the url string is parsed. -/
def candidateExt (c : Source) : Option String :=
  match c.format with
  | some f => if f ≠ "" then some f else parseExt c.src
  | none => parseExt c.src

/-- `if (ext && Howler.codecs(ext))`: usable when a truthy extension
was determined and the codec check passes. -/
def supportedSource (codecs : List String) (c : Source) : Bool :=
  match candidateExt c with
  | some e => e != "" && codecs.contains e
  | none => false

/-- The source scan of `load`: the first candidate whose extension is
backend-supported is selected. -/
def firstSupported (codecs : List String) : List Source → Option Source
  | [] => none
  | c :: cs => if supportedSource codecs c then some c else firstSupported codecs cs

/-- `load()` (source-selection part): with no audio support, or with no
supported candidate, emit `loaderror` (emission steps the load queue
with the event name, as `_emit` does) and return with the state — and
everything else — unchanged; otherwise the state moves to `loading`
and decoding is requested from the backend (the mixed-content HTML5
downgrade and the `Sound` construction that follow are backend-side
and outside the model).  Nothing is scheduled for retry on the error
paths. -/
def load (noAudio : Bool) (codecs : List String) (g : Group) :
    Group × List (String × String) :=
  if noAudio then
    ({ g with _queue := (loadQueue g._queue (some "loaderror")).1 },
     [("loaderror", "No audio support.")])
  else
    match firstSupported codecs g._src with
    | none =>
        ({ g with _queue := (loadQueue g._queue (some "loaderror")).1 },
         [("loaderror", "No codec support for selected audio sources.")])
    | some _ => ({ g with _state := "loading" }, [])

/-- JavaScript's `Math.round(v * 100) / 100` (round half towards
positive infinity). -/
def jsRound2 (q : ℚ) : ℚ := ((⌊q * 100 + 1 / 2⌋ : ℤ) : ℚ) / 100

/-- One interval tick of `_startFadeInterval`: advance the volume by
`diff * (elapsed / len)`, clamp it toward `t` (`max` for a downward
fade, `min` for an upward one), and round to two decimal places. -/
def fadeTickVol (diff len t vol e : ℚ) : ℚ :=
  let v := vol + diff * (e / len)
  jsRound2 (if diff < 0 then max t v else min t v)

/-- `Math.abs(diff / 0.01)`: the step count of the fade. -/
def fadeSteps (diff : ℚ) : ℚ := |diff / (1 / 100)|

/-- `Math.max(4, steps > 0 ? len / steps : len)`: the interval length
in milliseconds. -/
def fadeStepLen (len steps : ℚ) : ℚ := max 4 (if steps > 0 then len / steps else len)

/-- The interval body of `_startFadeInterval` for a fade from `f` to
`t` over `len` ms, driven by the elapsed times between ticks: each tick
computes `fadeTickVol` and applies it as the sound's volume; when the
clamped value reaches `t`, the interval is cleared, the volume is
snapped to `t` via `volume(t, id)` and one `fade` event is emitted.
Returns the sequence of applied volume values and the number of `fade`
emissions. -/
def fadeRun (f t len : ℚ) : List ℚ → ℚ → List ℚ × Nat
  | [], _ => ([], 0)
  | e :: es, vol =>
      let v := fadeTickVol (t - f) len t vol e
      if (t < f ∧ v ≤ t) ∨ (f < t ∧ t ≤ v) then ([v, t], 1)
      else
        let p := fadeRun f t len es v
        (v :: p.1, p.2)

/-- A two-decimal value (the image of `jsRound2`). -/
def repr2 (q : ℚ) : Prop := ∃ k : ℤ, q = (k : ℚ) / 100

/-- Pool group for the concrete playback traces: loaded, pool size 1,
default sprite `[0, 1000]`. -/
def poolGroup : Group :=
  { _state := "loaded", _pool := 1,
    _sprite := [("__default", { offset := 0, len := 1000, loopFlag := false })] }

/-- One `play()` call on the default sprite (trace step). -/
def step (g : Group) : Group := (play g (.str "__default")).1

/-- A group that has not finished loading, with the sprite
configuration of the spec's scenario (`sprites={foo:[500,1000]}`). -/
def preGroup : Group :=
  { _state := "loading",
    _sprite := [("foo", { offset := 500, len := 1000, loopFlag := false })] }

/-- A loaded group with only the default sprite. -/
def loadedGroup : Group :=
  { _state := "loaded",
    _sprite := [("__default", { offset := 0, len := 1000, loopFlag := false })] }

/-- A loaded group holding one paused sound whose seek position (2 s)
lies beyond the default sprite's stop bound (1 s). -/
def seekGroup : Group :=
  { _state := "loaded",
    _sounds := [{ _id := 1, _seek := 2 }],
    _sprite := [("__default", { offset := 0, len := 1000, loopFlag := false })] }

/-- An unloaded group whose single source candidate has an extension
(`xyz`) no backend supports. -/
def badSrcGroup : Group := { _src := [{ src := "a.xyz" }] }

theorem loadQueue_shape (q : List Task) (ev : Option String) :
    ∃ k, (loadQueue q ev).1 = q.drop k ∧
      ((loadQueue q ev).2 = [] ∨
        ∃ t, ((loadQueue q ev).1).head? = some t ∧ (loadQueue q ev).2 = [t.action]) := by
  match q, ev with
  | [], _ => exact ⟨0, by simp [loadQueue]⟩
  | task :: rest, none =>
      exact ⟨0, by simp [loadQueue]⟩
  | task :: rest, some e =>
      by_cases h : task.event = e
      · match rest with
        | [] => exact ⟨1, by simp [loadQueue, h]⟩
        | t' :: rest' => exact ⟨1, by simp [loadQueue, h]⟩
      · exact ⟨0, by simp [loadQueue, h]⟩

theorem inOrder_drop (k : Nat) (as : List QAction) :
    ∀ q : List Task, inOrder (q.drop k) as → inOrder q as := by
  induction as with
  | nil => intro q _; trivial
  | cons a as ih =>
      intro q h
      obtain ⟨j, hj, ha, hrest⟩ := h
      refine ⟨k + j, ?_, ?_, ?_⟩
      · have hlen : (q.drop k).length = q.length - k := List.length_drop k q
        omega
      · have := List.get_drop' q (i := k) (j := ⟨j, hj⟩)
        rw [ha]
        exact congrArg Task.action this
      · rw [List.drop_drop] at hrest
        exact hrest
  -- the indices of executed actions only move forward when the front
  -- of the queue is dropped

theorem inOrder_drainTrace (evs : List (Option String)) :
    ∀ q : List Task, inOrder q (drainTrace q evs).2 := by
  induction evs with
  | nil => intro q; simp [drainTrace, inOrder]
  | cons ev evs ih =>
      intro q
      obtain ⟨k, hq, hrun⟩ := loadQueue_shape q ev
      show inOrder q ((loadQueue q ev).2 ++ (drainTrace (loadQueue q ev).1 evs).2)
      rw [hq]
      rcases hrun with hnil | ⟨t, hhead, hone⟩
      · rw [hnil]
        simp only [List.nil_append]
        exact inOrder_drop k _ q (ih (q.drop k))
      · rw [hone]
        simp only [List.cons_append, List.nil_append]
        rw [hq] at hhead
        -- the single executed action is the head of the resulting queue,
        -- i.e. element k of the original queue
        have hk : k < q.length := by
          by_contra hge
          rw [List.drop_eq_nil_of_le (by omega)] at hhead
          simp at hhead
        refine ⟨k, hk, ?_, ih (q.drop k)⟩
        have hget : (q.drop k).head? = some (q.get ⟨k, hk⟩) := by
          have hcons : q.drop k = q.get ⟨k, hk⟩ :: q.drop (k + 1) :=
            List.drop_eq_get_cons hk
          rw [hcons]; rfl
        rw [hget] at hhead
        injection hhead with h'
        rw [← h']

/-- **C2.** `_loadQueue` semantics: a fired event equal to the head
task's trigger pops the head and recursively drains with an empty
trigger; a call with no event on a non-empty queue executes the head's
action unconditionally (without popping); and over any sequence of
calls the executed actions follow the queue in FIFO order. -/
theorem loadQueue_fifo_spec :
    (∀ (t : Task) (rest : List Task),
        loadQueue (t :: rest) (some t.event) = loadQueue rest none) ∧
    (∀ (t : Task) (rest : List Task),
        loadQueue (t :: rest) none = (t :: rest, [t.action])) ∧
    (∀ (q : List Task) (evs : List (Option String)),
        inOrder q (drainTrace q evs).2) := by
  refine ⟨?_, ?_, ?_⟩
  · intro t rest; simp [loadQueue]
  · intro t rest; rfl
  · intro q evs; exact inOrder_drainTrace evs q

/-- **C10.** `_getSoundIds` target-set inversion: with no id (the
target-all case used by `pause`, `stop`, `mute` and group-wide
`volume`) it returns the one-element list containing the null id, not
the list of all sound ids; with a truthy specific id it returns the
ids of every sound in the group. -/
theorem getSoundIds_inverted :
    (∀ sounds : List Sound, _getSoundIds sounds none = [none]) ∧
    (∀ (sounds : List Sound) (n : Nat), n ≠ 0 →
      _getSoundIds sounds (some n) = sounds.map (fun s => some s._id)) := by
  refine ⟨fun sounds => rfl, fun sounds n hn => ?_⟩
  simp [_getSoundIds, jsTruthyN, hn]

/-- Witness for the `_getSoundIds` inversion at a concrete pool and a
concrete id. -/
theorem getSoundIds_inverted_witness :
    _getSoundIds [({ _id := 7 } : Sound)] none = [none] ∧
    _getSoundIds [({ _id := 7 } : Sound)] (some 3) = [some 7] :=
  ⟨getSoundIds_inverted.1 _,
   getSoundIds_inverted.2 [({ _id := 7 } : Sound)] 3 (by decide)⟩

theorem endedCount_cons (s : Sound) (l : List Sound) :
    endedCount (s :: l) = (if s._ended then 1 else 0) + endedCount l := by
  by_cases hs : s._ended <;> simp [endedCount, List.filter_cons, hs, Nat.add_comm]

theorem nonEndedCount_cons (s : Sound) (l : List Sound) :
    nonEndedCount (s :: l) = (if s._ended then 0 else 1) + nonEndedCount l := by
  by_cases hs : s._ended <;> simp [nonEndedCount, List.filter_cons, hs, Nat.add_comm]

theorem length_split_ended (l : List Sound) :
    l.length = endedCount l + nonEndedCount l := by
  induction l with
  | nil => rfl
  | cons s rest ih =>
      rw [endedCount_cons, nonEndedCount_cons]
      by_cases hs : s._ended <;> simp [hs, ih] <;> omega

theorem drainGo_sublist (limit : Nat) (l : List Sound) (cnt : Nat) :
    (drainGo limit l cnt).1.Sublist l := by
  induction l generalizing cnt with
  | nil => simp [drainGo]
  | cons s rest ih =>
      simp only [drainGo]
      split
      · exact (ih cnt).cons₂ s
      · split
        · exact (ih cnt).cons s
        · exact (ih cnt).cons₂ s

theorem drainGo_cnt (limit : Nat) (l : List Sound) (cnt : Nat) :
    (drainGo limit l cnt).2 + endedCount l = cnt + endedCount (drainGo limit l cnt).1 := by
  induction l generalizing cnt with
  | nil => simp [drainGo]
  | cons s rest ih =>
      have hih := ih cnt
      simp only [drainGo]
      split
      · dsimp only
        rw [endedCount_cons, endedCount_cons]
        omega
      · next hgt =>
        split
        · next hs =>
          dsimp only
          rw [endedCount_cons, if_pos hs]
          omega
        · next hs =>
          dsimp only
          rw [endedCount_cons, endedCount_cons, if_neg hs]
          omega

theorem drainGo_stop (limit : Nat) (l : List Sound) (cnt : Nat) :
    (drainGo limit l cnt).2 ≤ limit ∨ endedCount (drainGo limit l cnt).1 = 0 := by
  induction l generalizing cnt with
  | nil => right; simp [drainGo, endedCount]
  | cons s rest ih =>
      simp only [drainGo]
      split
      · next hle => left; exact hle
      · next hgt =>
        rcases ih cnt with hle | hzero
        · exact absurd hle hgt
        · split
          · right; exact hzero
          · next hs =>
            right
            dsimp only
            rw [endedCount_cons, if_neg hs, hzero]

theorem drainGo_nonEnded (limit : Nat) (l : List Sound) (cnt : Nat) :
    nonEndedCount (drainGo limit l cnt).1 = nonEndedCount l := by
  induction l generalizing cnt with
  | nil => rfl
  | cons s rest ih =>
      simp only [drainGo]
      split
      · dsimp only
        rw [nonEndedCount_cons, nonEndedCount_cons, ih]
      · split
        · next hs =>
          dsimp only
          rw [ih cnt, nonEndedCount_cons, if_pos hs]
          omega
        · dsimp only
          rw [nonEndedCount_cons, nonEndedCount_cons, ih]

theorem drain_sublist (limit : Nat) (sounds : List Sound) :
    (_drain limit sounds).Sublist sounds := by
  unfold _drain
  split
  · exact List.Sublist.refl _
  · exact drainGo_sublist _ _ _

theorem drain_nonEnded (limit : Nat) (sounds : List Sound) :
    nonEndedCount (_drain limit sounds) = nonEndedCount sounds := by
  unfold _drain
  split
  · rfl
  · exact drainGo_nonEnded _ _ _

theorem drain_endedCount_le (limit : Nat) (sounds : List Sound) :
    endedCount (_drain limit sounds) ≤ limit := by
  unfold _drain
  split
  · next hlt =>
    have hle : endedCount sounds ≤ sounds.length := List.length_filter_le _ _
    omega
  · next hge =>
    have hc := drainGo_cnt limit sounds (endedCount sounds)
    have hs := drainGo_stop limit sounds (endedCount sounds)
    omega

/-- **C4** (amended).  What eviction actually bounds: `_drain` removes
only ended sounds (newest first, by construction of the downward
loop), preserves the non-ended sounds, leaves at most `pool` *ended*
sounds in the array, and therefore bounds the live count by the number
of non-ended instances plus the pool size — not by
`max(pool, playing)` as claimed. -/
theorem drain_pool_invariant :
    ∀ (limit : Nat) (sounds : List Sound),
      (_drain limit sounds).Sublist sounds ∧
      nonEndedCount (_drain limit sounds) = nonEndedCount sounds ∧
      endedCount (_drain limit sounds) ≤ limit ∧
      (_drain limit sounds).length ≤ nonEndedCount sounds + limit := by
  intro limit sounds
  have h2 := drain_nonEnded limit sounds
  have h3 := drain_endedCount_le limit sounds
  have h4 := length_split_ended (_drain limit sounds)
  exact ⟨drain_sublist limit sounds, h2, h3, by omega⟩

/-- **C4** (counterexample).  With pool size 1: two plays create two
sounds, both end naturally — the live count is 2 with nothing playing,
exceeding `max(pool, playing) = 1`.  And on the three-sound state
`[ended, ended, playing]`, `_drain 1` stops after removing one ended
sound: 2 live sounds remain (> pool) while an ended sound is still
retained — so eviction does not continue "until the live count is back
at or below the pool size or no ended Instances remain". -/
theorem drain_live_bound_cex :
    ((groupEnded (groupEnded (step (step poolGroup)) 0) 1)._sounds.length = 2 ∧
     (groupEnded (groupEnded (step (step poolGroup)) 0) 1)._pool = 1 ∧
     ((groupEnded (groupEnded (step (step poolGroup)) 0) 1)._sounds.filter
        (fun s => !s._paused)).length = 0 ∧
     ¬ ((groupEnded (groupEnded (step (step poolGroup)) 0) 1)._sounds.length ≤ max 1 0)) ∧
    ((_drain 1 (groupEnded (groupEnded (step (step (step poolGroup))) 0) 1)._sounds).length = 2 ∧
     endedCount
       (_drain 1 (groupEnded (groupEnded (step (step (step poolGroup))) 0) 1)._sounds) = 1) := by
  decide

/-- **C5** (code bug, failing input).  `register` hands out
`id = array length after the push`; with pool size 1, three plays
assign ids 1, 2, 3; sounds 1 and 2 end; the next play evicts the
newest ended sound (id 2) and recycles id 1; one more play registers a
brand-new sound whose id is the array length after the push — 3 — an
id already held by the still-live third sound.  The final id list is
`[1, 3, 3]`, so ids are reused, against the spec and against the
source's own `FIXME: ensure indexes are not reused!`. -/
theorem register_id_reuse :
    (∀ (arr : List Sound) (s : Sound), (register arr s).2 = arr.length + 1) ∧
    ((step (step (groupEnded (groupEnded (step (step (step poolGroup))) 0) 1)))._sounds.map
        (fun s => s._id) = [1, 3, 3]) ∧
    ¬ ((step (step (groupEnded (groupEnded (step (step (step poolGroup))) 0) 1)))._sounds.map
        (fun s => s._id)).Nodup := by
  refine ⟨fun arr s => by simp [register], by decide, by decide⟩

theorem firstEndedIdx_get (l : List Sound) (i : Nat) (h : firstEndedIdx l = some i) :
    ∃ s, l.get? i = some s ∧ s._ended = true := by
  induction l generalizing i with
  | nil => simp [firstEndedIdx] at h
  | cons s rest ih =>
      by_cases hs : s._ended
      · simp only [firstEndedIdx, hs, if_pos] at h
        cases h
        exact ⟨s, rfl, hs⟩
      · simp only [firstEndedIdx, hs] at h
        rw [if_neg (by simp [hs])] at h
        rcases hmap : firstEndedIdx rest with _ | j
        · rw [hmap] at h; simp at h
        · rw [hmap] at h
          simp only [Option.map_some'] at h
          cases h
          obtain ⟨t, ht, he⟩ := ih j hmap
          exact ⟨t, by simpa using ht, he⟩

theorem inactiveSound_get (g : Group) :
    ∃ s, (_inactiveSound g).1.get? (_inactiveSound g).2 = some s := by
  unfold _inactiveSound
  rcases hidx : firstEndedIdx (_drain g._pool g._sounds) with _ | i
  · simp only [hidx]
    exact ⟨newSound g ((_drain g._pool g._sounds).length + 1),
           List.get?_concat_length _ _⟩
  · simp only [hidx]
    obtain ⟨s, hs, _⟩ := firstEndedIdx_get _ i hidx
    exact ⟨s, hs⟩

/-- **C1** (amended).  Playing a sprite on a group that is not yet
loaded resolves a target sound through the pool, stores the sprite on
it, clears its ended flag, appends a retry task keyed to the trigger
event `play` (not `load`: the retry is popped when the deferred play's
own `play` event fires after the `load` handler drains the queue), and
immediately returns the sound's already-assigned id; no backend
playback is started and no `started` outcome is produced. -/
theorem play_preload_queues :
    ∀ (g : Group) (spr : String), g._state ≠ "loaded" →
      ∃ s : Sound,
        (_inactiveSound g).1.get? (_inactiveSound g).2 = some s ∧
        play g (.str spr) =
          ({ g with
              _sounds := (_inactiveSound g).1.set (_inactiveSound g).2
                           { s with _sprite := some spr, _ended := false },
              _queue := g._queue ++ [⟨"play", QAction.playId s._id⟩] },
           .queuedReturn s._id) := by
  intro g spr hst
  obtain ⟨s, hs⟩ := inactiveSound_get g
  refine ⟨s, hs, ?_⟩
  have hd : playDispatch g (.str spr) = (none, some spr, false) := by
    have hd0 : playDispatch g (.str spr) =
        if g._state = "loaded" ∧ lookupSprite g (some spr) = none then (none, none, true)
        else (none, some spr, false) := rfl
    rw [hd0, if_neg (fun hc => hst hc.1)]
  simp only [play, hd, jsTruthyN, Bool.false_eq_true, if_false, hs, Option.isNone_none,
    Bool.and_false, Bool.false_and]
  rw [if_pos hst]

/-- Witness for the amended pre-load behavior, at the spec scenario's
group (`sprites={foo:[500,1000]}`, still loading). -/
theorem play_preload_queues_witness :
    preGroup._state ≠ "loaded" ∧
    ∃ s : Sound,
      (_inactiveSound preGroup).1.get? (_inactiveSound preGroup).2 = some s ∧
      play preGroup (.str "foo") =
        ({ preGroup with
            _sounds := (_inactiveSound preGroup).1.set (_inactiveSound preGroup).2
                         { s with _sprite := some "foo", _ended := false },
            _queue := preGroup._queue ++ [⟨"play", QAction.playId s._id⟩] },
         .queuedReturn s._id) :=
  ⟨by decide, play_preload_queues preGroup "foo" (by decide)⟩

/-- **C1** (counterexample).  The pre-load retry is keyed to the
trigger event `play`, not `load`: playing sprite `foo` on a group that
is still loading enqueues exactly one task, and its trigger event is
`"play"`. -/
theorem play_preload_trigger_cex :
    ((play preGroup (.str "foo")).1._queue.map (fun t => t.event) = ["play"]) ∧
    ¬ ((play preGroup (.str "foo")).1._queue.map (fun t => t.event) = ["load"]) := by
  constructor <;> decide

/-- **C9** (amended).  Calling `play` with a sprite name missing from
the table of a loaded group is silently ignored: the call returns null
immediately and synchronously, with the group unchanged — no event is
emitted, no exception is raised, no instance is created. -/
theorem play_unknown_sprite_ignored :
    ∀ (g : Group) (s : String),
      g._state = "loaded" → lookupSprite g (some s) = none →
      play g (.str s) = (g, .nullReturn) := by
  intro g s hst hsp
  have hd : playDispatch g (.str s) = (none, none, true) := by
    have hd0 : playDispatch g (.str s) =
        if g._state = "loaded" ∧ lookupSprite g (some s) = none then (none, none, true)
        else (none, some s, false) := rfl
    rw [hd0, if_pos ⟨hst, hsp⟩]
  simp [play, hd]

/-- Witness for the silently-ignored unknown-sprite call at a concrete
loaded group. -/
theorem play_unknown_sprite_ignored_witness :
    loadedGroup._state = "loaded" ∧
    lookupSprite loadedGroup (some "bar") = none ∧
    play loadedGroup (.str "bar") = (loadedGroup, .nullReturn) :=
  ⟨by decide, by decide,
   play_unknown_sprite_ignored loadedGroup "bar" (by decide) (by decide)⟩

/-- **C9** (counterexample).  Against the claim that misuse "fails
immediately ... rather than being reported as an event or silently
ignored": an unknown sprite name on a loaded group produces the silent
`return null` path — the group is unchanged and the outcome is the
null return, not the modelled synchronous failure (`thrown`). -/
theorem play_unknown_sprite_cex :
    play loadedGroup (.str "bar") = (loadedGroup, .nullReturn) ∧
    PlayOutcome.nullReturn ≠ PlayOutcome.thrown := by
  constructor <;> decide

/-- **C3.**  On a loaded group, when the computed seek position is at
or beyond the active sprite's stop bound, `play` runs the
end-of-playback procedure (`_ended`) immediately on the target sound —
after recording the sprite and clearing the ended flag, exactly as the
source does before the check — and returns without starting backend
playback (no `started` outcome). -/
theorem play_seek_past_stop_ends :
    ∀ (g : Group) (pos : Nat) (sound : Sound) (sprite : Option String) (sp : SpriteDef),
      g._state = "loaded" →
      g._sounds.get? pos = some sound →
      lookupSprite g sprite = some sp →
      max 0 (if sound._seek > 0 then sound._seek else sp.offset / 1000) ≥
        (sp.offset + sp.len) / 1000 →
      playStart g pos sprite =
        (groupEnded
           { g with _sounds := (g._sounds.set pos { sound with _sprite := sprite, _ended := false }) } pos,
         .endedReturn sound._id) ∧
      ∀ i sk d tm, (playStart g pos sprite).2 ≠ .started i sk d tm := by
  intro g pos sound sprite sp _hst hget hsp hseek
  have h1 : playStart g pos sprite =
      (groupEnded
         { g with _sounds := (g._sounds.set pos { sound with _sprite := sprite, _ended := false }) } pos,
       .endedReturn sound._id) := by
    simp only [playStart, hget, hsp]
    rw [if_pos hseek]
  exact ⟨h1, by rw [h1]; intro i sk d tm h; cases h⟩

/-- Witness for the seek-past-stop behavior: the spec's example — a
`[0, 1000]` sprite with the sound seeked to 2 seconds — ends the
instance instead of starting playback. -/
theorem play_seek_past_stop_ends_witness :
    (playStart seekGroup 0 (some "__default")).2 = .endedReturn 1 := by
  have h := play_seek_past_stop_ends seekGroup 0 ({ _id := 1, _seek := 2 } : Sound)
    (some "__default") ({ offset := 0, len := 1000, loopFlag := false } : SpriteDef)
    (by decide) (by decide) (by decide) (by decide)
  rw [h.1]

theorem firstSupported_none (codecs : List String) (l : List Source)
    (h : ∀ c ∈ l, supportedSource codecs c = false) :
    firstSupported codecs l = none := by
  induction l with
  | nil => rfl
  | cons c cs ih =>
      have hc := h c (List.mem_cons_self c cs)
      simp only [firstSupported, hc, Bool.false_eq_true, if_false]
      exact ih (fun x hx => h x (List.mem_cons_of_mem _ hx))

/-- **C8.**  When no source candidate carries a backend-supported
extension, `load` emits `loaderror` with the no-codec-support message
and returns: the state stays `unloaded`, the sound pool is untouched,
and the queue is at most stepped (no retry is scheduled — only a fresh
caller-initiated `load` would try again). -/
theorem load_no_codec_support :
    ∀ (codecs : List String) (g : Group),
      g._state = "unloaded" →
      (∀ c ∈ g._src, supportedSource codecs c = false) →
      (load false codecs g).2 =
        [("loaderror", "No codec support for selected audio sources.")] ∧
      (load false codecs g).1._state = "unloaded" ∧
      (load false codecs g).1._sounds = g._sounds ∧
      (∃ k, (load false codecs g).1._queue = g._queue.drop k) := by
  intro codecs g hst hsup
  have hfs := firstSupported_none codecs g._src hsup
  have hld : load false codecs g =
      ({ g with _queue := (loadQueue g._queue (some "loaderror")).1 },
       [("loaderror", "No codec support for selected audio sources.")]) := by
    simp only [load, Bool.false_eq_true, if_false, hfs]
  rw [hld]
  obtain ⟨k, hk, _⟩ := loadQueue_shape g._queue (some "loaderror")
  exact ⟨rfl, hst, rfl, k, hk⟩

/-- Witness for the no-codec-support path: an `mp3`-only backend and a
single `a.xyz` candidate. -/
theorem load_no_codec_support_witness :
    badSrcGroup._state = "unloaded" ∧
    (∀ c ∈ badSrcGroup._src, supportedSource ["mp3"] c = false) ∧
    (load false ["mp3"] badSrcGroup).2 =
      [("loaderror", "No codec support for selected audio sources.")] ∧
    (load false ["mp3"] badSrcGroup).1._state = "unloaded" :=
  ⟨rfl, by decide,
   (load_no_codec_support ["mp3"] badSrcGroup rfl (by decide)).1,
   (load_no_codec_support ["mp3"] badSrcGroup rfl (by decide)).2.1⟩

theorem soundInv_mem_set {l : List Sound} {x : Sound} {n : Nat}
    (hl : ∀ t ∈ l, soundInv t) (hx : soundInv x) :
    ∀ s ∈ l.set n x, soundInv s := by
  intro s hs
  rcases List.mem_or_eq_of_mem_set hs with h | h
  · exact hl s h
  · rw [h]; exact hx

theorem groupInv_stopAtPos (g : Group) (pos : Nat) (hg : groupInv g) :
    groupInv (stopAtPos g pos) := by
  unfold stopAtPos
  rcases hget : g._sounds.get? pos with _ | sound
  · exact hg
  · intro s hs
    dsimp only at hs
    exact soundInv_mem_set hg (fun _ => rfl) s hs

theorem groupInv_groupEnded (g : Group) (pos : Nat) (hg : groupInv g) :
    groupInv (groupEnded g pos) := by
  unfold groupEnded
  rcases hget : g._sounds.get? pos with _ | sound
  · exact hg
  · have hsi : soundInv sound := hg sound (List.get?_mem hget)
    dsimp only
    split
    · intro s hs
      dsimp only at hs
      refine soundInv_mem_set hg ?_ s hs
      intro he
      exact hsi he
    · split
      · intro s hs
        dsimp only at hs
        refine soundInv_mem_set hg ?_ s hs
        intro _
        rfl
      · exact groupInv_stopAtPos _ pos (fun s hs => hg s hs)

theorem groupInv_playStart (g : Group) (pos : Nat) (spr : Option String)
    (hg : groupInv g) : groupInv (playStart g pos spr).1 := by
  unfold playStart
  rcases hget : g._sounds.get? pos with _ | sound
  · exact hg
  · rcases hsp : lookupSprite g spr with _ | sp
    · exact hg
    · have hx1 : soundInv { sound with _sprite := spr, _ended := false } := by
        intro he; simp at he
      have hgset : groupInv
          { g with _sounds :=
              (g._sounds.set pos { sound with _sprite := spr, _ended := false }) } := by
        intro s hs
        exact soundInv_mem_set hg hx1 s hs
      dsimp only
      split <;> split <;> dsimp only
      · exact groupInv_groupEnded _ pos hgset
      · intro s hs
        dsimp only at hs
        refine soundInv_mem_set (soundInv_mem_set hg hx1) ?_ s hs
        intro he; simp at he
      · exact groupInv_groupEnded _ pos hgset
      · intro s hs
        dsimp only at hs
        refine soundInv_mem_set (soundInv_mem_set hg hx1) ?_ s hs
        intro he; simp at he

theorem groupInv_inactive (g : Group) (hg : groupInv g) :
    ∀ s ∈ (_inactiveSound g).1, soundInv s := by
  intro s hs
  have hdrain : ∀ t ∈ _drain g._pool g._sounds, soundInv t :=
    fun t ht => hg t ((drain_sublist g._pool g._sounds).subset ht)
  unfold _inactiveSound at hs
  dsimp only at hs
  rcases hidx : firstEndedIdx (_drain g._pool g._sounds) with _ | i <;>
    rw [hidx] at hs <;> dsimp only at hs
  · rcases List.mem_append.mp hs with h | h
    · exact hdrain s h
    · rw [List.mem_singleton.mp h]
      intro _; rfl
  · exact hdrain s hs

theorem groupInv_play (g : Group) (arg : PlayArg) (hg : groupInv g) :
    groupInv (play g arg).1 := by
  have hinact := groupInv_inactive g hg
  unfold play
  dsimp only
  by_cases hd : (playDispatch g arg).2.2 = true
  · rw [if_pos hd]
    exact hg
  · rw [if_neg hd]
    by_cases hj : jsTruthyN (playDispatch g arg).1 = true
    · rw [if_pos hj]
      dsimp only
      by_cases hlen : (playDispatch g arg).1.getD 0 < g._sounds.length
      · rw [if_pos hlen]
        dsimp only
        rcases hget : g._sounds.get? ((playDispatch g arg).1.getD 0) with _ | sound
        · exact hg
        · dsimp only
          by_cases hst : g._state ≠ "loaded"
          · rw [if_pos hst]
            intro s hs
            dsimp only at hs
            refine soundInv_mem_set hg ?_ s hs
            intro he; simp at he
          · rw [if_neg hst]
            by_cases hap : (jsTruthyN (playDispatch g arg).1 && !sound._paused) = true
            · rw [if_pos hap]
              exact hg
            · rw [if_neg hap]
              exact groupInv_playStart _ _ _ hg
      · rw [if_neg hlen]
        exact hg
    · rw [if_neg hj]
      dsimp only
      rcases hget : (_inactiveSound g).1.get? (_inactiveSound g).2 with _ | sound
      · exact fun s hs => hinact s hs
      · dsimp only
        by_cases hst : g._state ≠ "loaded"
        · rw [if_pos hst]
          intro s hs
          dsimp only at hs
          refine soundInv_mem_set hinact ?_ s hs
          intro he; simp at he
        · rw [if_neg hst]
          by_cases hap : (jsTruthyN (playDispatch g arg).1 && !sound._paused) = true
          · rw [if_pos hap]
            exact fun s hs => hinact s hs
          · rw [if_neg hap]
            exact groupInv_playStart _ _ _ (fun s hs => hinact s hs)

/-- **C7.**  Flag consistency of an instance: along any sequence of
the engine's per-sound mutations (`SoundStep`), `ended = true` implies
`paused = true`; the same invariant is preserved group-wide by the
embedded group operations (`play`, `_ended`, the internal `stop`); a
paused sound never reports as playing (`playing` is the derived
`!paused`); and under the invariant every sound is in exactly one of
the three states actively-playing, paused-resumable, ended-inactive. -/
theorem sound_state_machine :
    (∀ s s' : Sound, Relation.ReflTransGen SoundStep s s' → soundInv s → soundInv s') ∧
    (∀ (g : Group) (arg : PlayArg), groupInv g → groupInv (play g arg).1) ∧
    (∀ (g : Group) (pos : Nat), groupInv g → groupInv (groupEnded g pos)) ∧
    (∀ (g : Group) (pos : Nat), groupInv g → groupInv (stopAtPos g pos)) ∧
    (∀ s : Sound, s._paused = true → playingSound s = false) ∧
    (∀ s : Sound, soundInv s →
      (playingSound s = true ∧
        ¬ (s._paused = true ∧ s._ended = false) ∧
        ¬ (s._paused = true ∧ s._ended = true)) ∨
      (playingSound s = false ∧
        (s._paused = true ∧ s._ended = false) ∧
        ¬ (s._paused = true ∧ s._ended = true)) ∨
      (playingSound s = false ∧
        ¬ (s._paused = true ∧ s._ended = false) ∧
        (s._paused = true ∧ s._ended = true))) := by
  refine ⟨?_, groupInv_play, groupInv_groupEnded, groupInv_stopAtPos, ?_, ?_⟩
  · intro s s' h
    induction h with
    | refl => exact id
    | tail _ hstep ih =>
        intro h0
        have hmid := ih h0
        cases hstep <;> intro he <;>
          first
          | rfl
          | exact hmid he
          | simp at he
  · intro s hp
    simp [playingSound, hp]
  · intro s hinv
    cases hp : s._paused <;> cases he : s._ended
    · exact .inl (by simp [playingSound, hp])
    · exact absurd (hinv he) (by simp [hp])
    · exact .inr (.inl (by simp [playingSound, hp]))
    · exact .inr (.inr (by simp [playingSound, hp]))

/-- Witness for the instance state machine: the empty step chain on a
fresh inactive sound, and one play on a concrete loaded group. -/
theorem sound_state_machine_witness :
    soundInv ({ _id := 1 } : Sound) ∧
    groupInv (play loadedGroup (.str "__default")).1 ∧
    playingSound ({ _id := 1 } : Sound) = false :=
  ⟨sound_state_machine.1 _ _ .refl (fun _ => rfl),
   sound_state_machine.2.1 loadedGroup (.str "__default") (by intro s hs; cases hs),
   sound_state_machine.2.2.2.2.1 _ rfl⟩

theorem jsRound2_mono {x y : ℚ} (h : x ≤ y) : jsRound2 x ≤ jsRound2 y := by
  unfold jsRound2
  have hf : (⌊x * 100 + 1 / 2⌋ : ℤ) ≤ ⌊y * 100 + 1 / 2⌋ :=
    Int.floor_le_floor (by linarith)
  have hq : ((⌊x * 100 + 1 / 2⌋ : ℤ) : ℚ) ≤ ((⌊y * 100 + 1 / 2⌋ : ℤ) : ℚ) := by
    exact_mod_cast hf
  gcongr

theorem jsRound2_fixed (k : ℤ) : jsRound2 ((k : ℚ) / 100) = (k : ℚ) / 100 := by
  unfold jsRound2
  have h100 : ((k : ℚ) / 100) * 100 = (k : ℚ) := by field_simp
  rw [h100, Int.floor_int_add, show ⌊(1:ℚ) / 2⌋ = 0 from
    Int.floor_eq_zero_iff.mpr (by constructor <;> norm_num)]
  norm_num

theorem repr2_jsRound2 (x : ℚ) : repr2 (jsRound2 x) := ⟨⌊x * 100 + 1 / 2⌋, rfl⟩

theorem jsRound2_of_repr2 {x : ℚ} (h : repr2 x) : jsRound2 x = x := by
  obtain ⟨k, rfl⟩ := h
  exact jsRound2_fixed k

theorem jsRound2_le_one {x : ℚ} (h : x ≤ 1) : jsRound2 x ≤ 1 := by
  have h1 : jsRound2 x ≤ jsRound2 1 := jsRound2_mono h
  have h2 : jsRound2 1 = 1 := by
    have h3 := jsRound2_fixed 100
    norm_num at h3
    exact h3
  rw [h2] at h1
  exact h1

theorem fadeRun_up_props :
    ∀ (es : List ℚ), (∀ e ∈ es, 0 ≤ e) →
    ∀ vol : ℚ, repr2 vol → 0 ≤ vol → vol ≤ 1 →
      List.Chain' (fun a b => a ≤ b) (vol :: (fadeRun 0 1 100 es vol).1) ∧
      (∀ v ∈ (fadeRun 0 1 100 es vol).1, repr2 v ∧ 0 ≤ v ∧ v ≤ 1) ∧
      (fadeRun 0 1 100 es vol).2 ≤ 1 ∧
      ((fadeRun 0 1 100 es vol).2 = 1 →
        ((fadeRun 0 1 100 es vol).1).getLast? = some 1) := by
  intro es
  induction es with
  | nil =>
      intro _ vol _ _ _
      refine ⟨List.chain'_singleton _, ?_, ?_, ?_⟩ <;> simp [fadeRun]
  | cons e es ih =>
      intro hnn vol hrep hnn0 hle1
      have he0 : 0 ≤ e := hnn e (List.mem_cons_self _ _)
      have hd : ¬ ((1:ℚ) - 0 < 0) := by norm_num
      have hA : vol ≤ vol + (1 - 0) * (e / 100) := by
        have h0 : (0:ℚ) ≤ (1 - 0) * (e / 100) := by positivity
        linarith
      have hv : fadeTickVol (1 - 0) 100 1 vol e =
          jsRound2 (min 1 (vol + (1 - 0) * (e / 100))) := by
        unfold fadeTickVol
        dsimp only
        rw [if_neg hd]
      have hv_ge : vol ≤ fadeTickVol (1 - 0) 100 1 vol e := by
        rw [hv]
        calc vol = jsRound2 vol := (jsRound2_of_repr2 hrep).symm
          _ ≤ jsRound2 (min 1 (vol + (1 - 0) * (e / 100))) :=
              jsRound2_mono (le_min hle1 hA)
      have hv_le1 : fadeTickVol (1 - 0) 100 1 vol e ≤ 1 := by
        rw [hv]
        exact jsRound2_le_one (min_le_left _ _)
      have hv_rep : repr2 (fadeTickVol (1 - 0) 100 1 vol e) := by
        rw [hv]; exact repr2_jsRound2 _
      have hv_ge0 : 0 ≤ fadeTickVol (1 - 0) 100 1 vol e := le_trans hnn0 hv_ge
      rw [show fadeRun 0 1 100 (e :: es) vol =
            (if ((1:ℚ) < 0 ∧ fadeTickVol (1 - 0) 100 1 vol e ≤ 1) ∨
                ((0:ℚ) < 1 ∧ 1 ≤ fadeTickVol (1 - 0) 100 1 vol e) then
               ([fadeTickVol (1 - 0) 100 1 vol e, 1], 1)
             else
               (fadeTickVol (1 - 0) 100 1 vol e ::
                  (fadeRun 0 1 100 es (fadeTickVol (1 - 0) 100 1 vol e)).1,
                (fadeRun 0 1 100 es (fadeTickVol (1 - 0) 100 1 vol e)).2)) from rfl]
      by_cases hdone : (1:ℚ) ≤ fadeTickVol (1 - 0) 100 1 vol e
      · rw [if_pos (Or.inr ⟨by norm_num, hdone⟩)]
        refine ⟨?_, ?_, le_rfl, fun _ => rfl⟩
        · rw [List.chain'_cons]
          refine ⟨hv_ge, ?_⟩
          rw [List.chain'_cons]
          exact ⟨hv_le1, List.chain'_singleton _⟩
        · intro x hx
          simp only [List.mem_cons, List.not_mem_nil, or_false] at hx
          rcases hx with rfl | rfl
          · exact ⟨hv_rep, hv_ge0, hv_le1⟩
          · exact ⟨⟨100, by norm_num⟩, by norm_num, le_rfl⟩
      · have hcond : ¬ (((1:ℚ) < 0 ∧ fadeTickVol (1 - 0) 100 1 vol e ≤ 1) ∨
            ((0:ℚ) < 1 ∧ 1 ≤ fadeTickVol (1 - 0) 100 1 vol e)) := by
          rintro (⟨h10, _⟩ | ⟨_, h1v⟩)
          · norm_num at h10
          · exact hdone h1v
        rw [if_neg hcond]
        obtain ⟨ihc, ihm, ihn, ihl⟩ :=
          ih (fun x hx => hnn x (List.mem_cons_of_mem _ hx))
            (fadeTickVol (1 - 0) 100 1 vol e) hv_rep hv_ge0 hv_le1
        refine ⟨?_, ?_, ihn, ?_⟩
        · rw [List.chain'_cons]
          exact ⟨hv_ge, ihc⟩
        · intro x hx
          rcases List.mem_cons.mp hx with rfl | hx
          · exact ⟨hv_rep, hv_ge0, hv_le1⟩
          · exact ihm x hx
        · intro hfire
          have hlast := ihl hfire
          rcases hp : (fadeRun 0 1 100 es (fadeTickVol (1 - 0) 100 1 vol e)).1 with _ | ⟨y, ys⟩
          · rw [hp] at hlast
            cases hlast
          · rw [hp] at hlast
            dsimp only
            rw [List.getLast?_cons_cons]
            exact hlast

/-- **C6.**  `fade(0, 1, 100, id)` through the fade interval: whatever
the (non-negative) elapsed times between ticks, the sequence of applied
volume values — starting from the initial `volume(from)` write of 0 —
is non-decreasing, never exceeds the target 1, and every value is
rounded to two decimal places (an integer multiple of 1/100); the
interval fires the `fade` event at most once, and when it completes the
last applied volume is exactly 1; with the interval length the source
computes (`stepLen = max(4, 100 / (|1-0| / 0.01)) = 4` ms), 25 on-time
ticks complete the fade, firing `fade` exactly once. -/
theorem fade_monotone_unit :
    ∀ (es : List ℚ), (∀ e ∈ es, 0 ≤ e) →
      (List.Chain' (fun a b => a ≤ b) (0 :: (fadeRun 0 1 100 es 0).1) ∧
       (∀ v ∈ (fadeRun 0 1 100 es 0).1, repr2 v ∧ 0 ≤ v ∧ v ≤ 1) ∧
       (fadeRun 0 1 100 es 0).2 ≤ 1 ∧
       ((fadeRun 0 1 100 es 0).2 = 1 →
         ((fadeRun 0 1 100 es 0).1).getLast? = some 1)) ∧
      (fadeRun 0 1 100 (List.replicate 25 (fadeStepLen 100 (fadeSteps (1 - 0)))) 0).2 = 1 := by
  intro es h
  exact ⟨fadeRun_up_props es h 0 ⟨0, by norm_num⟩ le_rfl (by norm_num), by decide⟩

/-- Witness for the fade properties: a single 100 ms tick completes
the fade at exactly 1.0 with one `fade` event. -/
theorem fade_monotone_unit_witness :
    (∀ e ∈ [(100:ℚ)], 0 ≤ e) ∧
    (fadeRun 0 1 100 [(100:ℚ)] 0).2 = 1 ∧
    ((fadeRun 0 1 100 [(100:ℚ)] 0).1).getLast? = some 1 :=
  ⟨by norm_num, by decide,
   (fade_monotone_unit [(100:ℚ)] (by norm_num)).1.2.2.2 (by decide)⟩

end AngularHowler
